import Mathlib

/-!
Verification of the relaxed-JSON-to-CSV export core (Go package `export`).

The development shallowly embeds the source file's functions:
`RelaxedJSONParser.ParseJSON` with its three tiers (strict `json.Unmarshal`
into a string-keyed map, extraction of brace-delimited spans from prose,
manual per-field heuristics), and `ExportManager.ExportFromString` with
`CSVExporter.WriteHeader` / `WriteRecord` / `Flush`.

Strings are modelled by Lean `String` (sequences of unicode characters);
machine-level byte details of Go strings are not needed by any claim.
-/

set_option maxRecDepth 100000

namespace Export

/-- JSON values as decoded by Go `encoding/json` into `interface()` values.
Numbers are kept as their source lexemes: Go decodes them to `float64`,
but no behaviour verified here inspects a numeric value, only the
success/failure and kind of the decode. -/
inductive JValue where
  | null : JValue
  | bool : Bool → JValue
  | num : String → JValue
  | str : String → JValue
  | arr : List JValue → JValue
  | obj : List (String × JValue) → JValue
deriving Inhabited

/-- A decoded Go `map` from strings to JSON values, represented by its
association list in decode order. Duplicate JSON keys are kept; lookups
(`mapGet`) give the later binding, as `encoding/json` map decoding does. -/
abbrev Jmap := List (String × JValue)

/-- First-some choice, the shape of every fallback in this development. -/
def orFallback {α : Type} (o y : Option α) : Option α :=
  match o with
  | some w => some w
  | none => y

/-- Lookup in a decoded object with Go map semantics: for duplicate keys
the later binding wins. -/
def mapGet : Jmap → String → Option JValue
  | [], _ => none
  | (k, v) :: rest, key =>
    orFallback (mapGet rest key) (if k = key then some v else none)

/-- JSON insignificant whitespace (RFC 8259, as accepted by `encoding/json`). -/
def jsonIsWS (c : Char) : Bool :=
  c = ' ' || c = '\t' || c = '\n' || c = '\r'

def skipJsonWS : List Char → List Char
  | [] => []
  | c :: rest => if jsonIsWS c then skipJsonWS rest else c :: rest

def hexVal (c : Char) : Option Nat :=
  if '0' ≤ c ∧ c ≤ '9' then some (c.toNat - '0'.toNat)
  else if 'a' ≤ c ∧ c ≤ 'f' then some (c.toNat - 'a'.toNat + 10)
  else if 'A' ≤ c ∧ c ≤ 'F' then some (c.toNat - 'A'.toNat + 10)
  else none

/-- Scanner for the body of a JSON string literal (the opening quote already
consumed); returns the decoded string and the input after the closing quote.
Control characters below 0x20 are rejected, escape sequences are decoded.
A lone surrogate half in a `u` escape is mapped through `Char.ofNat`
(Go substitutes U+FFFD there; no verified behaviour depends on it). -/
def scanJsonStringAux : Nat → List Char → List Char → Option (String × List Char)
  | 0, _, _ => none
  | _+1, _, [] => none
  | fuel+1, acc, c :: rest =>
    if c = '"' then some (String.mk acc.reverse, rest)
    else if c = '\\' then
      match rest with
      | [] => none
      | e :: rest2 =>
        if e = '"' then scanJsonStringAux fuel ('"' :: acc) rest2
        else if e = '\\' then scanJsonStringAux fuel ('\\' :: acc) rest2
        else if e = '/' then scanJsonStringAux fuel ('/' :: acc) rest2
        else if e = 'b' then scanJsonStringAux fuel ('\x08' :: acc) rest2
        else if e = 'f' then scanJsonStringAux fuel ('\x0c' :: acc) rest2
        else if e = 'n' then scanJsonStringAux fuel ('\n' :: acc) rest2
        else if e = 'r' then scanJsonStringAux fuel ('\r' :: acc) rest2
        else if e = 't' then scanJsonStringAux fuel ('\t' :: acc) rest2
        else if e = 'u' then
          match rest2 with
          | h1 :: h2 :: h3 :: h4 :: rest3 =>
            match hexVal h1, hexVal h2, hexVal h3, hexVal h4 with
            | some a, some b, some c2, some d =>
              scanJsonStringAux fuel
                (Char.ofNat (((a * 16 + b) * 16 + c2) * 16 + d) :: acc) rest3
            | _, _, _, _ => none
          | _ => none
        else none
    else if c.toNat < 0x20 then none
    else scanJsonStringAux fuel (c :: acc) rest

def scanJsonString (s : List Char) : Option (String × List Char) :=
  scanJsonStringAux (s.length + 1) [] s

def scanDigits : List Char → List Char × List Char
  | [] => ([], [])
  | c :: rest =>
    if c.isDigit then
      let (ds, r) := scanDigits rest
      (c :: ds, r)
    else ([], c :: rest)

/-- Optional fraction and exponent parts of a JSON number (Go grammar).
Returns `none` in the first component when the text is malformed there. -/
def scanFracExp (s : List Char) : Option (List Char) × List Char :=
  let fracStep : Option (List Char) × List Char :=
    match s with
    | '.' :: r =>
      let (ds, r1) := scanDigits r
      if ds = [] then (none, s) else (some ('.' :: ds), r1)
    | _ => (some [], s)
  match fracStep with
  | (none, _) => (none, s)
  | (some fracChars, s1) =>
    match s1 with
    | e :: r =>
      if e = 'e' ∨ e = 'E' then
        let signStep : List Char × List Char :=
          match r with
          | '+' :: rr => (['+'], rr)
          | '-' :: rr => (['-'], rr)
          | _ => ([], r)
        let (ds, r2) := scanDigits signStep.2
        if ds = [] then (none, s)
        else (some (fracChars ++ e :: (signStep.1 ++ ds)), r2)
      else (some fracChars, s1)
    | [] => (some fracChars, [])

/-- Lexes one JSON number (Go `encoding/json` grammar); returns the lexeme
and the remaining input. -/
def scanJsonNumber (s : List Char) : Option (List Char × List Char) :=
  let minusStep : List Char × List Char :=
    match s with
    | '-' :: r => (['-'], r)
    | _ => ([], s)
  match minusStep.2 with
  | [] => none
  | c :: rest =>
    if c = '0' then
      match scanFracExp rest with
      | (some fe, s2) => some (minusStep.1 ++ '0' :: fe, s2)
      | (none, _) => none
    else if c.isDigit then
      let (ds, r1) := scanDigits rest
      match scanFracExp r1 with
      | (some fe, s2) => some (minusStep.1 ++ c :: (ds ++ fe), s2)
      | (none, _) => none
    else none

mutual

/-- One JSON value (after optional leading whitespace); fuel bounds the
nesting depth, and `input.length + 1` is always enough because every
recursive descent first consumes at least one character. -/
def parseJsonValue : Nat → List Char → Option (JValue × List Char)
  | 0, _ => none
  | fuel+1, s =>
    match skipJsonWS s with
    | [] => none
    | c :: rest =>
      if c = 'n' then
        match rest with
        | 'u' :: 'l' :: 'l' :: r => some (.null, r)
        | _ => none
      else if c = 't' then
        match rest with
        | 'r' :: 'u' :: 'e' :: r => some (.bool true, r)
        | _ => none
      else if c = 'f' then
        match rest with
        | 'a' :: 'l' :: 's' :: 'e' :: r => some (.bool false, r)
        | _ => none
      else if c = '"' then
        match scanJsonString rest with
        | some (str, r) => some (.str str, r)
        | none => none
      else if c = '{' then
        match skipJsonWS rest with
        | '}' :: r => some (.obj [], r)
        | _ => parseJsonObjFields fuel [] rest
      else if c = '[' then
        match skipJsonWS rest with
        | ']' :: r => some (.arr [], r)
        | _ => parseJsonArrElems fuel [] rest
      else
        match scanJsonNumber (c :: rest) with
        | some (lex, r) => some (.num (String.mk lex), r)
        | none => none

/-- Fields of a JSON object after the opening brace (nonempty case):
`"key" : value` pairs separated by commas, closed by a brace. -/
def parseJsonObjFields : Nat → List (String × JValue) → List Char →
    Option (JValue × List Char)
  | 0, _, _ => none
  | fuel+1, acc, s =>
    match skipJsonWS s with
    | '"' :: rest =>
      match scanJsonString rest with
      | some (key, r1) =>
        match skipJsonWS r1 with
        | ':' :: r2 =>
          match parseJsonValue fuel r2 with
          | some (v, r3) =>
            match skipJsonWS r3 with
            | ',' :: r4 => parseJsonObjFields fuel (acc ++ [(key, v)]) r4
            | '}' :: r4 => some (.obj (acc ++ [(key, v)]), r4)
            | _ => none
          | none => none
        | _ => none
      | none => none
    | _ => none

/-- Elements of a JSON array after the opening bracket (nonempty case). -/
def parseJsonArrElems : Nat → List JValue → List Char →
    Option (JValue × List Char)
  | 0, _, _ => none
  | fuel+1, acc, s =>
    match parseJsonValue fuel s with
    | some (v, r1) =>
      match skipJsonWS r1 with
      | ',' :: r2 => parseJsonArrElems fuel (acc ++ [v]) r2
      | ']' :: r2 => some (.arr (acc ++ [v]), r2)
      | _ => none
    | none => none

end

/-- The whole input as exactly one JSON value, with surrounding whitespace,
as required by `json.Unmarshal`'s validity check. -/
def parseJsonTop (s : String) : Option JValue :=
  match parseJsonValue (s.data.length + 1) s.data with
  | some (v, rest) => if skipJsonWS rest = [] then some v else none
  | none => none

/-- Models `json.Unmarshal(data, m)` for `m` a Go `map` from strings to
`interface()` values: succeeds iff the whole input is one JSON value that is
an object, or `null` (which leaves the map nil, read as empty); any other
value kind is a type error that leaves the map untouched. -/
def goUnmarshalMap (s : String) : Option Jmap :=
  match parseJsonTop s with
  | some (.obj fs) => some fs
  | some .null => some []
  | _ => none

/-! ### The two extraction patterns of `NewRelaxedJSONParser`

The parser holds two compiled patterns, tried in order:
the first demands an opening brace, characters that are not braces, the
literal text `"description"` (quotes included), more non-brace characters,
and a closing brace; the second is the lazy any-characters form, whose dot
matches every character except a newline. `FindAllString` semantics —
leftmost match, then continue after its end — is implemented directly for
each pattern. For the first pattern greedy and lazy agree: the inner
character class excludes both braces, so a match starting at a given brace
is forced to end at the next brace, which must be a closing one. -/

/-- The literal `"description"` (with its quotes) required inside the first
pattern's span. -/
def descrLit : List Char := '"' :: ("description".data ++ ['"'])

def isBrace (c : Char) : Bool := c = '{' || c = '}'

/-- Does `pat` occur as a contiguous subsequence? -/
def containsSub (pat : List Char) : List Char → Bool
  | [] => pat.isPrefixOf []
  | c :: rest => pat.isPrefixOf (c :: rest) || containsSub pat rest

/-- Longest brace-free prefix, with the remainder (which starts with a brace
when nonempty). -/
def spanNonBrace : List Char → List Char × List Char
  | [] => ([], [])
  | c :: rest =>
    if isBrace c then ([], c :: rest)
    else
      let (sp, r) := spanNonBrace rest
      (c :: sp, r)

/-- One attempt of the first pattern at the head position: an opening brace,
a brace-free span containing `"description"`, a closing brace. Returns the
matched text and the rest of the input after it. -/
def p1MatchHere : List Char → Option (List Char × List Char)
  | [] => none
  | c :: rest =>
    if c = '{' then
      match spanNonBrace rest with
      | (_, []) => none
      | (interior, c2 :: rest2) =>
        if c2 = '}' then
          if containsSub descrLit interior then
            some ('{' :: (interior ++ ['}']), rest2)
          else none
        else none
    else none

def findAll1Aux : Nat → List Char → List (List Char)
  | 0, _ => []
  | _+1, [] => []
  | fuel+1, c :: rest =>
    match p1MatchHere (c :: rest) with
    | some (m, rest2) => m :: findAll1Aux fuel rest2
    | none => findAll1Aux fuel rest

/-- All matches of the first pattern, in `FindAllString` order. -/
def findAll1 (s : String) : List String :=
  (findAll1Aux s.data.length s.data).map String.mk

/-- Scan to the nearest closing brace with no newline before it: the lazy
any-character span of the second pattern. -/
def scanToClose : List Char → Option (List Char × List Char)
  | [] => none
  | c :: rest =>
    if c = '}' then some ([], rest)
    else if c = '\n' then none
    else
      match scanToClose rest with
      | some (interior, r) => some (c :: interior, r)
      | none => none

/-- One attempt of the second (lazy fallback) pattern at the head position. -/
def p2MatchHere : List Char → Option (List Char × List Char)
  | [] => none
  | c :: rest =>
    if c = '{' then
      match scanToClose rest with
      | some (interior, rest2) => some ('{' :: (interior ++ ['}']), rest2)
      | none => none
    else none

def findAll2Aux : Nat → List Char → List (List Char)
  | 0, _ => []
  | _+1, [] => []
  | fuel+1, c :: rest =>
    match p2MatchHere (c :: rest) with
    | some (m, rest2) => m :: findAll2Aux fuel rest2
    | none => findAll2Aux fuel rest

/-- All matches of the second pattern, in `FindAllString` order. -/
def findAll2 (s : String) : List String :=
  (findAll2Aux s.data.length s.data).map String.mk

/-! ### The six heuristic patterns of `parseManually`

Each source pattern is a literal, runs of whitespace, and a quoted or
keyword capture. The `FindStringSubmatch` call returns the leftmost match;
positions are scanned left to right and at each position the pattern is
matched directly. In every pattern the character after a whitespace run is
never itself a whitespace character, so the greedy run is forced to be the
maximal one and the match is unambiguous. -/

/-- The whitespace class of the source patterns (RE2 `s` class):
tab, newline, form feed, carriage return, space. -/
def reIsSpace (c : Char) : Bool :=
  c = '\t' || c = '\n' || c = '\x0c' || c = '\r' || c = ' '

def spanSpace : List Char → List Char × List Char
  | [] => ([], [])
  | c :: rest =>
    if reIsSpace c then
      let (sp, r) := spanSpace rest
      (c :: sp, r)
    else ([], c :: rest)

/-- Consume a literal, or fail. -/
def dropLit (lit s : List Char) : Option (List Char) :=
  if lit.isPrefixOf s then some (s.drop lit.length) else none

/-- Consume one-or-more whitespace characters. -/
def dropSpaces1 (s : List Char) : Option (List Char) :=
  match spanSpace s with
  | ([], _) => none
  | (_ :: _, r) => some r

/-- Consume zero-or-more whitespace characters. -/
def dropSpaces0 (s : List Char) : List Char :=
  (spanSpace s).2

/-- Capture of a quoted span: a quote, the shortest quote-free run, a quote. -/
def scanToQuote : List Char → Option (List Char × List Char)
  | [] => none
  | c :: rest =>
    if c = '"' then some ([], rest)
    else
      match scanToQuote rest with
      | some (cap, r) => some (c :: cap, r)
      | none => none

def capQuoted (s : List Char) : Option (List Char) :=
  match s with
  | '"' :: rest => (scanToQuote rest).map (fun p => p.1)
  | _ => none

/-- Leftmost position where the single-position matcher succeeds. -/
def findFirstCap (here : List Char → Option (List Char)) :
    List Char → Option (List Char)
  | [] => here []
  | c :: rest =>
    match here (c :: rest) with
    | some cap => some cap
    | none => findFirstCap here rest

/-- `description` pattern: the word, whitespace, `of`, whitespace, a quoted
capture. -/
def descOfHere (s : List Char) : Option (List Char) := do
  let s1 ← dropLit "description".data s
  let s2 ← dropSpaces1 s1
  let s3 ← dropLit "of".data s2
  let s4 ← dropSpaces1 s3
  capQuoted s4

/-- `has_music` pattern: `music:`, optional whitespace, the keyword `true`
or `false` (the capture). -/
def musicHere (s : List Char) : Option (List Char) := do
  let s1 ← dropLit "music:".data s
  let s2 := dropSpaces0 s1
  if "true".data.isPrefixOf s2 then some "true".data
  else if "false".data.isPrefixOf s2 then some "false".data
  else none

/-- `transcript` pattern: the quoted key, optional whitespace, a colon,
optional whitespace, a quoted capture. -/
def transcriptHere (s : List Char) : Option (List Char) := do
  let s1 ← dropLit ('"' :: ("transcript".data ++ ['"'])) s
  let s2 := dropSpaces0 s1
  let s3 ← dropLit [':'] s2
  let s4 := dropSpaces0 s3
  capQuoted s4

/-- `song_title` pattern: `title`, whitespace, `is`, whitespace, a quoted
capture. -/
def titleIsHere (s : List Char) : Option (List Char) := do
  let s1 ← dropLit "title".data s
  let s2 ← dropSpaces1 s1
  let s3 ← dropLit "is".data s2
  let s4 ← dropSpaces1 s3
  capQuoted s4

/-- `song_artist` pattern: `by`, whitespace, a quoted capture. -/
def byHere (s : List Char) : Option (List Char) := do
  let s1 ← dropLit "by".data s
  let s2 ← dropSpaces1 s1
  capQuoted s2

/-- `video_path` pattern: `path`, whitespace, `is`, whitespace, a quoted
capture. -/
def pathIsHere (s : List Char) : Option (List Char) := do
  let s1 ← dropLit "path".data s
  let s2 ← dropSpaces1 s1
  let s3 ← dropLit "is".data s2
  let s4 ← dropSpaces1 s3
  capQuoted s4

def matchDescription (s : String) : Option String :=
  (findFirstCap descOfHere s.data).map String.mk

def matchHasMusic (s : String) : Option String :=
  (findFirstCap musicHere s.data).map String.mk

def matchTranscript (s : String) : Option String :=
  (findFirstCap transcriptHere s.data).map String.mk

def matchSongTitle (s : String) : Option String :=
  (findFirstCap titleIsHere s.data).map String.mk

def matchSongArtist (s : String) : Option String :=
  (findFirstCap byHere s.data).map String.mk

def matchVideoPath (s : String) : Option String :=
  (findFirstCap pathIsHere s.data).map String.mk

/-! ### `parseManually` and `ParseJSON` -/

/-- The contribution of one heuristic pattern to the result map. -/
def optField (key : String) (conv : String → JValue) :
    Option String → Jmap
  | some v => [(key, conv v)]
  | none => []

/-- The fields recovered by `parseManually`. Go iterates its pattern map in
unspecified order; the six keys are distinct, so the resulting map does not
depend on that order and a fixed one is used here. The `has_music` capture
is converted to a boolean by comparison with `true`, as in the source. -/
def manualFields (input : String) : Jmap :=
  optField "description" JValue.str (matchDescription input)
    ++ optField "has_music" (fun t => JValue.bool (t == "true")) (matchHasMusic input)
    ++ optField "transcript" JValue.str (matchTranscript input)
    ++ optField "song_title" JValue.str (matchSongTitle input)
    ++ optField "song_artist" JValue.str (matchSongArtist input)
    ++ optField "video_path" JValue.str (matchVideoPath input)

/-- `RelaxedJSONParser.parseManually`: the heuristic fields, or the error
when none matched. -/
def parseManually (input : String) : Except String Jmap :=
  if (manualFields input).isEmpty then
    .error "failed to extract any data from input"
  else .ok (manualFields input)

/-- One pattern's match list, each candidate tried with the strict parse;
the first success wins. A failing candidate is syntactically invalid (a
valid JSON text delimited by braces is an object), so in Go it leaves the
reused result map untouched. -/
def tryMatches : List String → Option Jmap
  | [] => none
  | m :: rest =>
    match goUnmarshalMap m with
    | some r => some r
    | none => tryMatches rest

/-- The match lists of the parser's two patterns, in registration order. -/
def jsonPatternMatches (input : String) : List (List String) :=
  [findAll1 input, findAll2 input]

def tryPatterns : List (List String) → Option Jmap
  | [] => none
  | ms :: rest =>
    match tryMatches ms with
    | some r => some r
    | none => tryPatterns rest

/-- `RelaxedJSONParser.ParseJSON`: strict parse of the whole input, then the
two extraction patterns in order, then the manual heuristics. -/
def ParseJSON (input : String) : Except String Jmap :=
  match goUnmarshalMap input with
  | some r => .ok r
  | none =>
    match tryPatterns (jsonPatternMatches input) with
    | some r => .ok r
    | none => parseManually input

/-! ### The CSV exporter -/

/-- `getString`: the value of the key when present and a string, otherwise
the empty string. -/
def getString (record : Jmap) (key : String) : String :=
  match mapGet record key with
  | some (.str s) => s
  | _ => ""

/-- `getBoolString`: the text of the boolean value of the key when present
and a boolean, otherwise the text of `false`. -/
def getBoolString (record : Jmap) (key : String) : String :=
  match mapGet record key with
  | some (.bool b) => if b then "true" else "false"
  | _ => "false"

/-- The fixed header row of `WriteHeader`. -/
def csvHeader : List String :=
  ["description", "has_music", "transcript", "song_title", "song_artist",
   "web_search_song_title", "web_search_song_artist", "youtube_url",
   "spotify_url", "video_path"]

/-- The row built by `WriteRecord` from a parsed record. -/
def projectRow (record : Jmap) : List String :=
  [getString record "description",
   getBoolString record "has_music",
   getString record "transcript",
   getString record "song_title",
   getString record "song_artist",
   getString record "web_search_song_title",
   getString record "web_search_song_artist",
   getString record "youtube_url",
   getString record "spotify_url",
   getString record "video_path"]

/-- Go `unicode.IsSpace` restricted to the Latin-1 range (the wider unicode
White_Space classes are not needed by any verified behaviour). -/
def goIsSpace (c : Char) : Bool :=
  c = ' ' || c = '\t' || c = '\n' || c = '\x0b' || c = '\x0c' || c = '\r' ||
    c = '\x85' || c = '\xa0'

/-- `encoding/csv` quoting predicate for the comma delimiter: a field is
quoted when it is the two-character text backslash-dot, contains a comma, a
quote or a line break, or starts with a space character. -/
def fieldNeedsQuotes (f : String) : Bool :=
  if f = "" then false
  else if f = "\\." then true
  else if f.data.any (fun c => c = ',' || c = '"' || c = '\r' || c = '\n') then true
  else
    match f.data with
    | [] => false
    | c :: _ => goIsSpace c

def escapeQuotes : List Char → List Char
  | [] => []
  | c :: rest =>
    if c = '"' then '"' :: '"' :: escapeQuotes rest
    else c :: escapeQuotes rest

def csvField (f : String) : String :=
  if fieldNeedsQuotes f then String.mk ('"' :: (escapeQuotes f.data ++ ['"']))
  else f

/-- One serialized CSV line, newline-terminated (the writer's CRLF option is
off). -/
def csvLine (fields : List String) : String :=
  String.intercalate "," (fields.map csvField) ++ "\n"

/-- The observable state of the CSV writer: the rows accepted so far and how
many times the writer has been flushed. -/
structure CsvWriter where
  rows : List (List String)
  flushCount : Nat
deriving Repr, DecidableEq

/-- One write to the sink. The sink is modelled by the ordinal of the write
at which it fails, if any; `encoding/csv` surfaces such a failure as the
error of the write call, and a failing write contributes nothing. -/
def csvWrite (failAt : Option Nat) (row : List String) (w : CsvWriter) :
    Except String CsvWriter :=
  if failAt = some w.rows.length then .error "write error"
  else .ok ⟨w.rows ++ [row], w.flushCount⟩

/-- `CSVExporter.Flush` (its error is not inspected by the source). -/
def csvFlush (w : CsvWriter) : CsvWriter :=
  ⟨w.rows, w.flushCount + 1⟩

/-- The outcome of one export call: the returned value, the final writer
state, and the 1-based positions of the lines warned about. -/
structure ExportResult where
  res : Except String Unit
  writer : CsvWriter
  warnings : List Nat
deriving Repr

def dropWhileSpace : List Char → List Char
  | [] => []
  | c :: rest => if goIsSpace c then dropWhileSpace rest else c :: rest

/-- Go `strings.TrimSpace` (Latin-1 fragment of the space class). -/
def goTrimSpace (s : String) : String :=
  String.mk ((dropWhileSpace (dropWhileSpace s.data.reverse).reverse))

def splitNLAux : List Char → List Char → List String
  | acc, [] => [String.mk acc.reverse]
  | acc, c :: rest =>
    if c = '\n' then String.mk acc.reverse :: splitNLAux [] rest
    else splitNLAux (c :: acc) rest

/-- Go `strings.Split` with the newline separator: the text between
consecutive newlines, one entry more than there are newlines. -/
def splitLines (s : String) : List String :=
  splitNLAux [] s.data

/-- The per-line loop of `ExportFromString`: trim, skip blanks, parse, warn
and continue on parse failure, append a row on success, abort on a write
failure, flush after the last line. -/
def exportLoop (failAt : Option Nat) :
    List String → Nat → CsvWriter → List Nat → ExportResult
  | [], _, w, warns => ⟨.ok (), csvFlush w, warns⟩
  | line :: rest, idx, w, warns =>
    if goTrimSpace line = "" then exportLoop failAt rest (idx + 1) w warns
    else
      match ParseJSON (goTrimSpace line) with
      | .error _ => exportLoop failAt rest (idx + 1) w (warns ++ [idx + 1])
      | .ok record =>
        match csvWrite failAt (projectRow record) w with
        | .error e => ⟨.error ("failed to write CSV record: " ++ e), w, warns⟩
        | .ok w2 => exportLoop failAt rest (idx + 1) w2 warns

/-- `ExportManager.ExportFromString` after the input has been split into
lines: the header write (fatal on failure), then the loop. -/
def exportFromLines (failAt : Option Nat) (lines : List String) : ExportResult :=
  match csvWrite failAt csvHeader ⟨[], 0⟩ with
  | .error e => ⟨.error ("failed to write CSV header: " ++ e), ⟨[], 0⟩, []⟩
  | .ok w => exportLoop failAt lines 0 w []

/-- `ExportManager.ExportFromString`: trim the input, split it on newlines,
export the lines. -/
def ExportFromString (failAt : Option Nat) (input : String) : ExportResult :=
  exportFromLines failAt (splitLines (goTrimSpace input))

/-! ### Specification-side descriptions of the export outcome -/

/-- The row a single blob contributes, when it contributes one. -/
def blobRow (l : String) : Option (List String) :=
  if goTrimSpace l = "" then none
  else
    match ParseJSON (goTrimSpace l) with
    | .ok r => some (projectRow r)
    | .error _ => none

/-- The data rows of an export, one per successfully parsed blob, in input
order. -/
def successRows : List String → List (List String)
  | [] => []
  | l :: rest =>
    match blobRow l with
    | some row => row :: successRows rest
    | none => successRows rest

/-- The 1-based positions of the blobs that fail to parse (blank blobs are
skipped silently and warned about never). -/
def failPosFrom : Nat → List String → List Nat
  | _, [] => []
  | idx, l :: rest =>
    if goTrimSpace l = "" then failPosFrom (idx + 1) rest
    else
      match ParseJSON (goTrimSpace l) with
      | .ok _ => failPosFrom (idx + 1) rest
      | .error _ => (idx + 1) :: failPosFrom (idx + 1) rest

/-- First candidate of an ordered list that passes the strict parse — the
specification's description of the embedded-structure tier. -/
def firstJson : List String → Option Jmap
  | [] => none
  | c :: rest => orFallback (goUnmarshalMap c) (firstJson rest)

def isError : Except String Unit → Bool
  | .error _ => true
  | .ok _ => false

/-! ### Helper lemmas -/

@[simp] theorem orFallback_some {α : Type} (w : α) (y : Option α) :
    orFallback (some w) y = some w := rfl

@[simp] theorem orFallback_none {α : Type} (y : Option α) :
    orFallback none y = y := rfl

@[simp] theorem orFallback_none_right {α : Type} (o : Option α) :
    orFallback o none = o := by
  cases o <;> rfl

theorem orFallback_assoc {α : Type} (a b c : Option α) :
    orFallback (orFallback a b) c = orFallback a (orFallback b c) := by
  cases a <;> cases b <;> rfl

theorem mapGet_append (xs ys : Jmap) (k : String) :
    mapGet (xs ++ ys) k = orFallback (mapGet ys k) (mapGet xs k) := by
  induction xs with
  | nil => simp [mapGet]
  | cons p rest ih =>
    obtain ⟨k', v⟩ := p
    simp only [List.cons_append, mapGet, List.append_eq, ih, orFallback_assoc]

theorem mapGet_optField_ne (key : String) (conv : String → JValue)
    (m : Option String) (k : String) (h : ¬ key = k) :
    mapGet (optField key conv m) k = none := by
  cases m <;> simp [optField, mapGet, h]

theorem mapGet_optField_self (key : String) (conv : String → JValue)
    (m : Option String) :
    mapGet (optField key conv m) key = m.map conv := by
  cases m <;> simp [optField, mapGet]

theorem tryMatches_eq_firstJson (ms : List String) :
    tryMatches ms = firstJson ms := by
  induction ms with
  | nil => rfl
  | cons m rest ih =>
    simp only [tryMatches, firstJson, ih]
    cases h : goUnmarshalMap m <;> simp [h]

theorem firstJson_append (a b : List String) :
    firstJson (a ++ b) = orFallback (firstJson a) (firstJson b) := by
  induction a with
  | nil => simp [firstJson]
  | cons m rest ih =>
    simp only [List.cons_append, firstJson, List.append_eq, ih, orFallback_assoc]

/-- The two-pattern loop of `ParseJSON` is the first-parsing-candidate rule
over the concatenated, ordered candidate list. -/
theorem tryPatterns_eq_firstJson (input : String) :
    tryPatterns (jsonPatternMatches input) =
      firstJson (findAll1 input ++ findAll2 input) := by
  simp only [jsonPatternMatches, tryPatterns, tryMatches_eq_firstJson,
    firstJson_append]
  cases h : firstJson (findAll1 input) <;>
    cases h2 : firstJson (findAll2 input) <;> simp [h, h2, firstJson]

theorem exportLoop_none (lines : List String) : ∀ (idx : Nat) (w : CsvWriter)
    (warns : List Nat),
    exportLoop none lines idx w warns =
      ⟨.ok (), ⟨w.rows ++ successRows lines, w.flushCount + 1⟩,
        warns ++ failPosFrom idx lines⟩ := by
  induction lines with
  | nil =>
    intro idx w warns
    simp [exportLoop, successRows, failPosFrom, csvFlush]
  | cons l rest ih =>
    intro idx w warns
    simp only [exportLoop, successRows, failPosFrom, blobRow]
    by_cases ht : goTrimSpace l = ""
    · simp [ht, ih]
    · simp only [ht, if_false]
      cases hp : ParseJSON (goTrimSpace l) with
      | error e => simp [ih]
      | ok record =>
        simp only [csvWrite, reduceCtorEq, if_false, ih]
        simp

theorem successRows_cons_skip (l : String) (rest : List String)
    (ht : goTrimSpace l = "") :
    successRows (l :: rest) = successRows rest := by
  simp [successRows, blobRow, ht]

theorem successRows_cons_err (l : String) (rest : List String) (e : String)
    (ht : ¬ goTrimSpace l = "") (hp : ParseJSON (goTrimSpace l) = .error e) :
    successRows (l :: rest) = successRows rest := by
  simp [successRows, blobRow, ht, hp]

theorem successRows_cons_ok (l : String) (rest : List String) (record : Jmap)
    (ht : ¬ goTrimSpace l = "") (hp : ParseJSON (goTrimSpace l) = .ok record) :
    successRows (l :: rest) = projectRow record :: successRows rest := by
  simp [successRows, blobRow, ht, hp]

theorem exportLoop_miss (lines : List String) : ∀ (k idx : Nat)
    (w : CsvWriter) (warns : List Nat),
    (k < w.rows.length ∨ w.rows.length + (successRows lines).length ≤ k) →
    exportLoop (some k) lines idx w warns = exportLoop none lines idx w warns := by
  induction lines with
  | nil => intro k idx w warns _; rfl
  | cons l rest ih =>
    intro k idx w warns hk
    simp only [exportLoop]
    by_cases ht : goTrimSpace l = ""
    · rw [successRows_cons_skip l rest ht] at hk
      simp only [ht, if_true]
      exact ih k (idx + 1) w warns hk
    · simp only [ht, if_false]
      cases hp : ParseJSON (goTrimSpace l) with
      | error e =>
        rw [successRows_cons_err l rest e ht hp] at hk
        exact ih k (idx + 1) w (warns ++ [idx + 1]) hk
      | ok record =>
        rw [successRows_cons_ok l rest record ht hp] at hk
        simp only [List.length_cons] at hk
        have hkne : k ≠ w.rows.length := by omega
        have hne : ¬ ((some k : Option Nat) = some w.rows.length) := by
          simp [hkne]
        simp only [csvWrite, hne, if_false]
        refine ih k (idx + 1) ⟨w.rows ++ [projectRow record], w.flushCount⟩ warns ?_
        simp only [List.length_append, List.length_cons, List.length_nil]
        omega

theorem exportLoop_hit (lines : List String) : ∀ (k idx : Nat)
    (w : CsvWriter) (warns : List Nat),
    w.rows.length ≤ k → k < w.rows.length + (successRows lines).length →
    (exportLoop (some k) lines idx w warns).res =
        .error "failed to write CSV record: write error" ∧
    (exportLoop (some k) lines idx w warns).writer =
        ⟨w.rows ++ (successRows lines).take (k - w.rows.length), w.flushCount⟩ := by
  induction lines with
  | nil =>
    intro k idx w warns h1 h2
    simp [successRows] at h2
    omega
  | cons l rest ih =>
    intro k idx w warns h1 h2
    simp only [exportLoop]
    by_cases ht : goTrimSpace l = ""
    · rw [successRows_cons_skip l rest ht] at h2 ⊢
      simp only [ht, if_true]
      exact ih k (idx + 1) w warns h1 h2
    · simp only [ht, if_false]
      cases hp : ParseJSON (goTrimSpace l) with
      | error e =>
        rw [successRows_cons_err l rest e ht hp] at h2 ⊢
        exact ih k (idx + 1) w (warns ++ [idx + 1]) h1 h2
      | ok record =>
        rw [successRows_cons_ok l rest record ht hp] at h2 ⊢
        simp only [List.length_cons] at h2
        by_cases hk : k = w.rows.length
        · have heq : ((some k : Option Nat) = some w.rows.length) := by
            simp [hk]
          simp only [csvWrite, heq, if_true]
          refine ⟨rfl, ?_⟩
          simp [hk]
        · have hlt : w.rows.length < k := by omega
          have hne : ¬ ((some k : Option Nat) = some w.rows.length) := by
            simp
            omega
          simp only [csvWrite, hne, if_false]
          have h1' : (w.rows ++ [projectRow record]).length ≤ k := by
            simp only [List.length_append, List.length_cons, List.length_nil]
            omega
          have h2' : k < (w.rows ++ [projectRow record]).length +
              (successRows rest).length := by
            simp only [List.length_append, List.length_cons, List.length_nil]
            omega
          obtain ⟨hres, hwriter⟩ :=
            ih k (idx + 1) ⟨w.rows ++ [projectRow record], w.flushCount⟩ warns h1' h2'
          refine ⟨hres, ?_⟩
          rw [hwriter]
          have hk1 : k - w.rows.length = (k - (w.rows.length + 1)) + 1 := by
            omega
          rw [hk1, List.take_succ_cons]
          simp only [List.length_append, List.length_cons, List.length_nil,
            List.append_assoc, List.singleton_append]

theorem spanNonBrace_spec (s : List Char) :
    (∀ c ∈ (spanNonBrace s).1, isBrace c = false) ∧
      s = (spanNonBrace s).1 ++ (spanNonBrace s).2 := by
  induction s with
  | nil => simp [spanNonBrace]
  | cons c rest ih =>
    by_cases hb : isBrace c
    · simp [spanNonBrace, hb]
    · simp only [spanNonBrace, hb, if_false]
      constructor
      · intro x hx
        rcases List.mem_cons.1 hx with h | h
        · subst h
          simpa using hb
        · exact ih.1 x h
      · calc c :: rest = c :: ((spanNonBrace rest).1 ++ (spanNonBrace rest).2) := by
              rw [← ih.2]
          _ = _ := by simp

theorem scanToClose_spec (s : List Char) :
    ∀ interior r, scanToClose s = some (interior, r) →
      s = interior ++ '}' :: r ∧
        ∀ c ∈ interior, ¬ c = '}' ∧ ¬ c = '\n' := by
  induction s with
  | nil => intro interior r h; simp [scanToClose] at h
  | cons c rest ih =>
    intro interior r h
    by_cases hc : c = '}'
    · simp [scanToClose, hc] at h
      obtain ⟨h1, h2⟩ := h
      subst h1; subst h2
      simp [hc]
    · by_cases hn : c = '\n'
      · simp [scanToClose, hc, hn] at h
      · simp only [scanToClose, hc, hn, if_false] at h
        cases h2 : scanToClose rest with
        | none => rw [h2] at h; simp at h
        | some p =>
          obtain ⟨int2, r2⟩ := p
          rw [h2] at h
          simp only [Option.some.injEq, Prod.mk.injEq] at h
          obtain ⟨h3, h4⟩ := h
          obtain ⟨ha, hb⟩ := ih int2 r2 h2
          subst h3; subst h4
          constructor
          · simp [ha]
          · intro x hx
            rcases List.mem_cons.1 hx with hx | hx
            · subst hx; exact ⟨hc, hn⟩
            · exact hb x hx

theorem p1MatchHere_spec (s m r : List Char) (h : p1MatchHere s = some (m, r)) :
    ∃ interior, m = '{' :: (interior ++ ['}']) ∧
      (∀ c ∈ interior, isBrace c = false) ∧
      containsSub descrLit interior = true := by
  cases s with
  | nil => simp [p1MatchHere] at h
  | cons c rest =>
    by_cases hc : c = '{'
    · simp only [p1MatchHere, hc, if_true] at h
      revert h
      cases hs : spanNonBrace rest with
      | mk interior rest1 =>
        cases rest1 with
        | nil => intro h; simp at h
        | cons c2 rest2 =>
          by_cases h2 : c2 = '}'
          · by_cases hd : containsSub descrLit interior
            · simp only [h2, if_true, hd]
              intro h
              simp only [Option.some.injEq, Prod.mk.injEq] at h
              refine ⟨interior, h.1.symm, ?_, hd⟩
              have := (spanNonBrace_spec rest).1
              rw [hs] at this
              exact this
            · simp only [h2, if_true, hd, if_false]
              intro h; simp at h
          · simp only [h2, if_false]
            intro h; simp at h
    · simp [p1MatchHere, hc] at h

theorem p2MatchHere_spec (s m r : List Char) (h : p2MatchHere s = some (m, r)) :
    ∃ interior, m = '{' :: (interior ++ ['}']) ∧
      ∀ c ∈ interior, ¬ c = '}' ∧ ¬ c = '\n' := by
  cases s with
  | nil => simp [p2MatchHere] at h
  | cons c rest =>
    by_cases hc : c = '{'
    · simp only [p2MatchHere, hc, if_true] at h
      revert h
      cases h2 : scanToClose rest with
      | none => intro h; simp at h
      | some p =>
        obtain ⟨interior, rest2⟩ := p
        intro h
        simp only [Option.some.injEq, Prod.mk.injEq] at h
        exact ⟨interior, h.1.symm, (scanToClose_spec rest interior rest2 h2).2⟩
    · simp [p2MatchHere, hc] at h

theorem findAll1Aux_mem (fuel : Nat) : ∀ (s m : List Char),
    m ∈ findAll1Aux fuel s →
    ∃ interior, m = '{' :: (interior ++ ['}']) ∧
      (∀ c ∈ interior, isBrace c = false) ∧
      containsSub descrLit interior = true := by
  induction fuel with
  | zero => intro s m h; simp [findAll1Aux] at h
  | succ fuel ih =>
    intro s m h
    cases s with
    | nil => simp [findAll1Aux] at h
    | cons c rest =>
      revert h
      simp only [findAll1Aux]
      cases hp : p1MatchHere (c :: rest) with
      | none => exact ih rest m
      | some p =>
        obtain ⟨m1, rest2⟩ := p
        intro h
        rcases List.mem_cons.1 h with h | h
        · subst h
          exact p1MatchHere_spec (c :: rest) _ rest2 hp
        · exact ih rest2 m h

theorem findAll2Aux_mem (fuel : Nat) : ∀ (s m : List Char),
    m ∈ findAll2Aux fuel s →
    ∃ interior, m = '{' :: (interior ++ ['}']) ∧
      ∀ c ∈ interior, ¬ c = '}' ∧ ¬ c = '\n' := by
  induction fuel with
  | zero => intro s m h; simp [findAll2Aux] at h
  | succ fuel ih =>
    intro s m h
    cases s with
    | nil => simp [findAll2Aux] at h
    | cons c rest =>
      revert h
      simp only [findAll2Aux]
      cases hp : p2MatchHere (c :: rest) with
      | none => exact ih rest m
      | some p =>
        obtain ⟨m1, rest2⟩ := p
        intro h
        rcases List.mem_cons.1 h with h | h
        · subst h
          exact p2MatchHere_spec (c :: rest) _ rest2 hp
        · exact ih rest2 m h

theorem mapGet_optField (key : String) (conv : String → JValue)
    (m : Option String) (k : String) :
    mapGet (optField key conv m) k =
      if k = key then m.map conv else none := by
  by_cases hk : k = key
  · subst hk
    simp [mapGet_optField_self]
  · have hk2 : ¬ key = k := fun h => hk h.symm
    simp [mapGet_optField_ne key conv m k hk2, hk]

/-- Evaluation of a lookup in the heuristic-field map: each of the six keys
reads off its own pattern's capture, every other key is absent. -/
theorem mapGet_manualFields (input k : String) :
    mapGet (manualFields input) k =
      if k = "description" then (matchDescription input).map JValue.str
      else if k = "has_music" then
        (matchHasMusic input).map (fun t => JValue.bool (t == "true"))
      else if k = "transcript" then (matchTranscript input).map JValue.str
      else if k = "song_title" then (matchSongTitle input).map JValue.str
      else if k = "song_artist" then (matchSongArtist input).map JValue.str
      else if k = "video_path" then (matchVideoPath input).map JValue.str
      else none := by
  by_cases h1 : k = "description" <;>
    by_cases h2 : k = "has_music" <;>
    by_cases h3 : k = "transcript" <;>
    by_cases h4 : k = "song_title" <;>
    by_cases h5 : k = "song_artist" <;>
    by_cases h6 : k = "video_path" <;>
    simp_all [manualFields, mapGet_append, mapGet_optField]

/-! ### The claims -/

/-- C1: for every input string that is a valid structured (JSON) object,
`ParseJSON` succeeds at tier 1 and returns a mapping whose keys and values
equal the input object's keys and values exactly (round-trip identity
through the strict parse), without consulting the later tiers. -/
theorem claim_c1_strict_roundtrip (input : String) (fs : Jmap)
    (h : parseJsonTop input = some (JValue.obj fs)) :
    ParseJSON input = .ok fs := by
  have hg : goUnmarshalMap input = some fs := by
    simp [goUnmarshalMap, h]
  simp only [ParseJSON, hg]

theorem claim_c1_strict_roundtrip_witness :
    parseJsonTop "\x7b\"description\": \"Test video\", \"has_music\": true, \"video_path\": \"gs://b/v.mp4\"\x7d" =
      some (JValue.obj [("description", JValue.str "Test video"),
        ("has_music", JValue.bool true),
        ("video_path", JValue.str "gs://b/v.mp4")]) ∧
    ParseJSON "\x7b\"description\": \"Test video\", \"has_music\": true, \"video_path\": \"gs://b/v.mp4\"\x7d" =
      .ok [("description", JValue.str "Test video"),
        ("has_music", JValue.bool true),
        ("video_path", JValue.str "gs://b/v.mp4")] :=
  ⟨rfl, claim_c1_strict_roundtrip _ _ rfl⟩

/-- C2: when the strict parse of the whole input fails, `ParseJSON` scans
the input with the two patterns in their fixed order (the
`"description"`-containing brace span first, the lazy brace span second),
attempts the strict parse on each candidate in that order, and returns the
first candidate that parses. -/
theorem claim_c2_embedded_recovery (input : String) (m : Jmap)
    (hstrict : goUnmarshalMap input = none)
    (hfound : firstJson (findAll1 input ++ findAll2 input) = some m) :
    ParseJSON input = .ok m := by
  have h2 : tryPatterns (jsonPatternMatches input) = some m := by
    rw [tryPatterns_eq_firstJson, hfound]
  simp only [ParseJSON, hstrict, h2]

theorem claim_c2_embedded_recovery_witness :
    goUnmarshalMap "This is prose: \x7b\"description\": \"X\", \"has_music\": true\x7d end." = none ∧
    firstJson (findAll1 "This is prose: \x7b\"description\": \"X\", \"has_music\": true\x7d end." ++
        findAll2 "This is prose: \x7b\"description\": \"X\", \"has_music\": true\x7d end.") =
      some [("description", JValue.str "X"), ("has_music", JValue.bool true)] ∧
    ParseJSON "This is prose: \x7b\"description\": \"X\", \"has_music\": true\x7d end." =
      .ok [("description", JValue.str "X"), ("has_music", JValue.bool true)] :=
  ⟨rfl, rfl, claim_c2_embedded_recovery _ _ rfl rfl⟩

/-- C3: when neither the strict nor the embedded tier succeeds, `ParseJSON`
returns the heuristic-field map: the six fixed per-field patterns are tried
independently against the full input with at most one match per field, every
matched field is in the result (`has_music` converted to a boolean by
comparison of the captured token with `true`, all others kept as strings),
and no other key is. -/
theorem claim_c3_manual_heuristics (input : String)
    (hstrict : goUnmarshalMap input = none)
    (hembed : tryPatterns (jsonPatternMatches input) = none)
    (hne : (manualFields input).isEmpty = false) :
    ParseJSON input = .ok (manualFields input) ∧
    mapGet (manualFields input) "description" =
      (matchDescription input).map JValue.str ∧
    mapGet (manualFields input) "has_music" =
      (matchHasMusic input).map (fun t => JValue.bool (t == "true")) ∧
    mapGet (manualFields input) "transcript" =
      (matchTranscript input).map JValue.str ∧
    mapGet (manualFields input) "song_title" =
      (matchSongTitle input).map JValue.str ∧
    mapGet (manualFields input) "song_artist" =
      (matchSongArtist input).map JValue.str ∧
    mapGet (manualFields input) "video_path" =
      (matchVideoPath input).map JValue.str ∧
    ∀ k, ¬ k ∈ ["description", "has_music", "transcript", "song_title",
        "song_artist", "video_path"] → mapGet (manualFields input) k = none := by
  refine ⟨?_, ?_, ?_, ?_, ?_, ?_, ?_, ?_⟩
  · simp only [ParseJSON, hstrict, hembed, parseManually, hne,
      Bool.false_eq_true, if_false]
  · simp [mapGet_manualFields]
  · simp [mapGet_manualFields]
  · simp [mapGet_manualFields]
  · simp [mapGet_manualFields]
  · simp [mapGet_manualFields]
  · simp [mapGet_manualFields]
  · intro k hk
    simp only [List.mem_cons, List.mem_singleton] at hk
    push_neg at hk
    obtain ⟨h1, h2, h3, h4, h5, h6, _⟩ := hk
    simp [mapGet_manualFields, h1, h2, h3, h4, h5, h6]

theorem claim_c3_manual_heuristics_witness :
    ParseJSON "The song title is \"Anthem\" by \"Band\". Video path is \"gs://b/v.mp4\"." =
      .ok (manualFields "The song title is \"Anthem\" by \"Band\". Video path is \"gs://b/v.mp4\".") ∧
    manualFields "The song title is \"Anthem\" by \"Band\". Video path is \"gs://b/v.mp4\"." =
      [("song_title", JValue.str "Anthem"), ("song_artist", JValue.str "Band"),
       ("video_path", JValue.str "gs://b/v.mp4")] :=
  ⟨(claim_c3_manual_heuristics
      "The song title is \"Anthem\" by \"Band\". Video path is \"gs://b/v.mp4\"."
      rfl rfl rfl).1, rfl⟩

/-- C4 (counterexample): the empty JSON object is a success outcome with
zero fields, refuting the claim that `ParseJSON` never returns a success
outcome in which zero fields were recoverable. -/
theorem claim_c4_counterexample :
    ParseJSON "\x7b\x7d" = .ok ([] : Jmap) := rfl

/-- C4 (amended): `ParseJSON` returns the no-extractable-data failure iff
all three tiers recover nothing — the strict parse fails, no pattern
candidate parses, and zero heuristic fields match; a tier-1 parse of an
empty object (for example the input of two bare braces) is, however, a
success outcome with zero fields. -/
theorem claim_c4_error_iff_nothing (input : String) :
    (∃ e, ParseJSON input = .error e) ↔
      (goUnmarshalMap input = none ∧
        tryPatterns (jsonPatternMatches input) = none ∧
        manualFields input = []) := by
  constructor
  · intro ⟨e, he⟩
    revert he
    simp only [ParseJSON]
    cases h1 : goUnmarshalMap input with
    | some r => intro he; simp at he
    | none =>
      cases h2 : tryPatterns (jsonPatternMatches input) with
      | some r => intro he; simp at he
      | none =>
        simp only [parseManually]
        cases h3 : (manualFields input).isEmpty with
        | true =>
          intro _
          refine ⟨?_, ?_, ?_⟩ <;>
            first
            | trivial
            | exact List.isEmpty_iff.1 h3
        | false => intro he; simp at he
  · intro ⟨h1, h2, h3⟩
    refine ⟨"failed to extract any data from input", ?_⟩
    have h4 : (manualFields input).isEmpty = true := by
      simp [h3]
    simp only [ParseJSON, h1, h2, parseManually, h4, if_true]

theorem claim_c4_error_iff_nothing_witness :
    ∃ e, ParseJSON "nothing recoverable here" = .error e := by
  refine (claim_c4_error_iff_nothing "nothing recoverable here").2 ⟨?_, ?_, ?_⟩ <;> rfl

/-- The complete outcome of an export over a never-failing sink. -/
theorem exportFromLines_none (lines : List String) :
    exportFromLines none lines =
      ⟨.ok (), ⟨csvHeader :: successRows lines, 1⟩, failPosFrom 0 lines⟩ := by
  have h : exportFromLines none lines =
      exportLoop none lines 0 ⟨[csvHeader], 0⟩ [] := rfl
  rw [h, exportLoop_none]
  simp

/-- C5: with a sink that never fails, the export of every sequence of input
blobs succeeds — no single blob's parse failure aborts it — its table is
the header followed by exactly one data row per blob whose parse succeeds,
in input order, zero rows for blobs whose parse fails, and the warnings are
exactly the 1-based positions of the non-blank blobs whose parse fails. -/
theorem claim_c5_rows_iff_success (lines : List String) :
    exportFromLines none lines =
      ⟨.ok (), ⟨csvHeader :: successRows lines, 1⟩, failPosFrom 0 lines⟩ :=
  exportFromLines_none lines

/-- C6: every export emits the header row first, exactly once,
unconditionally — also for zero blobs and zero successes — and the
serialized header line is exactly the fixed column list. -/
theorem claim_c6_header (lines : List String) :
    (exportFromLines none lines).writer.rows.take 1 = [csvHeader] ∧
    (exportFromLines none lines).writer.rows.drop 1 = successRows lines ∧
    csvLine csvHeader =
      "description,has_music,transcript,song_title,song_artist,web_search_song_title,web_search_song_artist,youtube_url,spotify_url,video_path\n" := by
  rw [exportFromLines_none]
  exact ⟨rfl, rfl, rfl⟩

/-- C7: every emitted row has all 10 columns; a column whose recognized key
is present with the expected type uses the value; present with a wrong type
is treated as absent; absent renders as the type's zero value — the empty
string for string columns, the text of `false` for the boolean column. -/
theorem claim_c7_column_defaults (record : Jmap) :
    (projectRow record).length = 10 ∧
    (∀ key s, mapGet record key = some (JValue.str s) →
      getString record key = s) ∧
    (∀ key v, mapGet record key = some v → (∀ s, ¬ v = JValue.str s) →
      getString record key = "") ∧
    (∀ key, mapGet record key = none → getString record key = "") ∧
    (∀ key b, mapGet record key = some (JValue.bool b) →
      getBoolString record key = (if b then "true" else "false")) ∧
    (∀ key v, mapGet record key = some v → (∀ b, ¬ v = JValue.bool b) →
      getBoolString record key = "false") ∧
    (∀ key, mapGet record key = none → getBoolString record key = "false") := by
  refine ⟨rfl, ?_, ?_, ?_, ?_, ?_, ?_⟩
  · intro key s h
    simp [getString, h]
  · intro key v h hv
    cases v with
    | str s => exact absurd rfl (hv s)
    | _ => simp [getString, h]
  · intro key h
    simp [getString, h]
  · intro key b h
    simp [getBoolString, h]
  · intro key v h hv
    cases v with
    | bool b => exact absurd rfl (hv b)
    | _ => simp [getBoolString, h]
  · intro key h
    simp [getBoolString, h]

theorem claim_c7_column_defaults_witness :
    getString [("a", JValue.num "3")] "a" = "" ∧
    getBoolString [("a", JValue.num "3")] "a" = "false" ∧
    getString [] "description" = "" ∧
    getBoolString [] "has_music" = "false" :=
  ⟨(claim_c7_column_defaults [("a", JValue.num "3")]).2.2.1 "a" (JValue.num "3")
      rfl (fun s h => by cases h),
   (claim_c7_column_defaults [("a", JValue.num "3")]).2.2.2.2.2.1 "a"
      (JValue.num "3") rfl (fun b h => by cases h),
   (claim_c7_column_defaults []).2.2.2.1 "description" rfl,
   (claim_c7_column_defaults []).2.2.2.2.2.2 "has_music" rfl⟩

/-- C8 (counterexample): a successfully parsed record whose recognized
values sit nested under a `song` object is projected with empty `song_title`
and `song_artist` columns — the nested title never reaches its column, so
the exporter does not flatten nested values. -/
theorem claim_c8_counterexample :
    ParseJSON "\x7b\"song\": \x7b\"title\": \"T\", \"artist\": \"A\"\x7d\x7d" =
      .ok [("song", JValue.obj [("title", JValue.str "T"),
        ("artist", JValue.str "A")])] ∧
    projectRow [("song", JValue.obj [("title", JValue.str "T"),
        ("artist", JValue.str "A")])] =
      ["", "false", "", "", "", "", "", "", "", ""] :=
  ⟨rfl, rfl⟩

/-- C8 (amended): the exporter projects only top-level keys onto the
10-column row: whenever the top-level `song_title` and `song_artist` keys
are absent, those two columns hold the empty string, regardless of any
nested recognized values (for example a `song` object with `title` and
`artist` sub-fields). -/
theorem claim_c8_no_flattening (record : Jmap) (sub : Jmap)
    (_hsong : mapGet record "song" = some (JValue.obj sub))
    (ht : mapGet record "song_title" = none)
    (ha : mapGet record "song_artist" = none) :
    (projectRow record).get? 3 = some "" ∧
    (projectRow record).get? 4 = some "" := by
  simp [projectRow, getString, ht, ha]

theorem claim_c8_no_flattening_witness :
    (projectRow [("song", JValue.obj [("title", JValue.str "T"),
        ("artist", JValue.str "A")])]).get? 3 = some "" ∧
    (projectRow [("song", JValue.obj [("title", JValue.str "T"),
        ("artist", JValue.str "A")])]).get? 4 = some "" :=
  claim_c8_no_flattening
    [("song", JValue.obj [("title", JValue.str "T"), ("artist", JValue.str "A")])]
    [("title", JValue.str "T"), ("artist", JValue.str "A")] rfl rfl rfl

/-- C9: a failure while writing to the sink is fatal: the call errors
exactly when the failing write ordinal lies among the writes of the
successful run, in which case it aborts with the already-written prefix of
the table and without flushing; with no failure the call succeeds and the
sink is flushed exactly once, after all blobs are processed. -/
theorem claim_c9_sink_failure (lines : List String) (k : Nat) :
    ((exportFromLines none lines).res = .ok () ∧
      (exportFromLines none lines).writer.flushCount = 1) ∧
    (isError (exportFromLines (some k) lines).res = true ↔
      k < (exportFromLines none lines).writer.rows.length) ∧
    (k < (exportFromLines none lines).writer.rows.length →
      (exportFromLines (some k) lines).writer.flushCount = 0 ∧
      (exportFromLines (some k) lines).writer.rows =
        (exportFromLines none lines).writer.rows.take k) := by
  rw [exportFromLines_none]
  refine ⟨⟨rfl, rfl⟩, ?_⟩
  cases k with
  | zero =>
    have h0 : exportFromLines (some 0) lines =
        ⟨.error "failed to write CSV header: write error", ⟨[], 0⟩, []⟩ := rfl
    rw [h0]
    constructor
    · simp [isError]
    · intro _
      exact ⟨rfl, rfl⟩
  | succ k =>
    have h1 : exportFromLines (some (k + 1)) lines =
        exportLoop (some (k + 1)) lines 0 ⟨[csvHeader], 0⟩ [] := rfl
    rw [h1]
    by_cases hk : k < (successRows lines).length
    · obtain ⟨hres, hwriter⟩ := exportLoop_hit lines (k + 1) 0 ⟨[csvHeader], 0⟩ []
        (by simp) (by simp; omega)
      rw [hres, hwriter]
      refine ⟨?_, ?_⟩
      · simp only [isError, List.length_cons]
        constructor
        · intro _; omega
        · intro _; trivial
      · intro _
        refine ⟨rfl, ?_⟩
        simp [List.take_succ_cons]
    · have hmiss := exportLoop_miss lines (k + 1) 0 ⟨[csvHeader], 0⟩ []
        (by right; simp; omega)
      rw [hmiss, exportLoop_none]
      refine ⟨?_, ?_⟩
      · simp only [isError, List.length_cons]
        constructor
        · intro h; simp at h
        · intro h; omega
      · intro h
        simp only [List.length_cons] at h
        omega

theorem claim_c9_sink_failure_witness :
    (exportFromLines (some 1) ["\x7b\"description\": \"d\"\x7d"]).writer.flushCount = 0 ∧
    (exportFromLines (some 1) ["\x7b\"description\": \"d\"\x7d"]).writer.rows =
      (exportFromLines none ["\x7b\"description\": \"d\"\x7d"]).writer.rows.take 1 := by
  have h := (claim_c9_sink_failure ["\x7b\"description\": \"d\"\x7d"] 1).2.2
  exact h (by decide)

/-- C10 (counterexample): tier 2 recovers a pretty-printed, multi-line flat
object containing the `description` key — the first pattern's character
class accepts newlines — so the single-line restriction does not hold: on
this input the strict tier fails, the fallback pattern finds nothing, the
heuristics find nothing, and yet the object is recovered. -/
theorem claim_c10_counterexample :
    goUnmarshalMap "pre \x7b\n\"description\": \"X\"\n\x7d post" = none ∧
    findAll2 "pre \x7b\n\"description\": \"X\"\n\x7d post" = [] ∧
    manualFields "pre \x7b\n\"description\": \"X\"\n\x7d post" = [] ∧
    ParseJSON "pre \x7b\n\"description\": \"X\"\n\x7d post" =
      .ok [("description", JValue.str "X")] :=
  ⟨rfl, rfl, rfl, rfl⟩

/-- C10 (amended): every tier-2 candidate is one brace-delimited span whose
interior contains no closing brace — so an embedded object that itself
contains a nested object is never recovered whole by tier 2 — and the
fallback pattern's candidates additionally contain no newline, while the
first pattern's candidates have entirely brace-free interiors containing
the `"description"` literal but may span multiple lines. -/
theorem claim_c10_candidate_shape (input m : String)
    (h : m ∈ findAll1 input ++ findAll2 input) :
    ∃ interior : List Char,
      m.data = '{' :: (interior ++ ['}']) ∧
      (∀ c ∈ interior, ¬ c = '}') ∧
      (m ∈ findAll1 input →
        (∀ c ∈ interior, isBrace c = false) ∧
        containsSub descrLit interior = true) ∧
      (m ∈ findAll2 input → ∀ c ∈ interior, ¬ c = '\n') := by
  have huniq : ∀ i1 i2 : List Char,
      ('{' :: (i1 ++ ['}']) : List Char) = '{' :: (i2 ++ ['}']) → i1 = i2 := by
    intro i1 i2 hii
    injection hii with _ htail
    exact List.append_cancel_right htail
  have hshape1 : ∀ interior : List Char, m.data = '{' :: (interior ++ ['}']) →
      m ∈ findAll1 input →
      (∀ c ∈ interior, isBrace c = false) ∧
        containsSub descrLit interior = true := by
    intro interior hdata h1
    obtain ⟨l, hl, hml⟩ := List.mem_map.1 h1
    obtain ⟨i2, heq, hbr, hds⟩ := findAll1Aux_mem _ _ l hl
    have hld : m.data = l := by rw [← hml]
    have : interior = i2 := huniq _ _ (by rw [← hdata, hld, heq])
    subst this
    exact ⟨hbr, hds⟩
  have hshape2 : ∀ interior : List Char, m.data = '{' :: (interior ++ ['}']) →
      m ∈ findAll2 input →
      ∀ c ∈ interior, ¬ c = '}' ∧ ¬ c = '\n' := by
    intro interior hdata h2
    obtain ⟨l, hl, hml⟩ := List.mem_map.1 h2
    obtain ⟨i2, heq, hprop⟩ := findAll2Aux_mem _ _ l hl
    have hld : m.data = l := by rw [← hml]
    have : interior = i2 := huniq _ _ (by rw [← hdata, hld, heq])
    subst this
    exact hprop
  rcases List.mem_append.1 h with h1 | h2
  · obtain ⟨l, hl, hml⟩ := List.mem_map.1 h1
    obtain ⟨interior, heq, hbr, hds⟩ := findAll1Aux_mem _ _ l hl
    have hdata : m.data = '{' :: (interior ++ ['}']) := by
      rw [← hml]; exact heq
    refine ⟨interior, hdata, ?_, fun _ => hshape1 interior hdata h1, ?_⟩
    · intro c hc
      have := hbr c hc
      simp [isBrace] at this
      exact this.2
    · intro h2 c hc
      exact (hshape2 interior hdata h2 c hc).2
  · obtain ⟨l, hl, hml⟩ := List.mem_map.1 h2
    obtain ⟨interior, heq, hprop⟩ := findAll2Aux_mem _ _ l hl
    have hdata : m.data = '{' :: (interior ++ ['}']) := by
      rw [← hml]; exact heq
    refine ⟨interior, hdata, ?_, fun h1 => hshape1 interior hdata h1, ?_⟩
    · intro c hc
      exact (hprop c hc).1
    · intro _ c hc
      exact (hprop c hc).2

theorem claim_c10_candidate_shape_witness :
    ∃ interior : List Char,
      ("\x7bz\x7d" : String).data = '{' :: (interior ++ ['}']) ∧
      (∀ c ∈ interior, ¬ c = '}') ∧
      (("\x7bz\x7d" : String) ∈ findAll1 "a\x7bz\x7d b" →
        (∀ c ∈ interior, isBrace c = false) ∧
        containsSub descrLit interior = true) ∧
      (("\x7bz\x7d" : String) ∈ findAll2 "a\x7bz\x7d b" →
        ∀ c ∈ interior, ¬ c = '\n') :=
  claim_c10_candidate_shape "a\x7bz\x7d b" "\x7bz\x7d" (by decide)

end Export

section Scratch
open Export
example : parseJsonTop "\x7b\"a\": true, \"b\": \"x\"\x7d" =
    some (.obj [("a", .bool true), ("b", .str "x")]) := by rfl
example : goUnmarshalMap "null" = some [] := by rfl
example : goUnmarshalMap "\x7b\x7d" = some [] := by rfl
example : goUnmarshalMap "[1, 2]" = none := by rfl
example : goUnmarshalMap "\x7b\"s\": \x7b\"t\": \"T\"\x7d, \"n\": -1.5e3\x7d" =
    some [("s", .obj [("t", .str "T")]), ("n", .num "-1.5e3")] := by rfl
example : goUnmarshalMap "\x7b\"a\": 1\x7d junk" = none := by rfl
example : goUnmarshalMap "" = none := by rfl
-- the embedded-JSON test of the source's test file
example : ParseJSON "This is some prose text with JSON embedded: \x7b\"description\": \"Test video\", \"has_music\": true\x7d and more text" =
    .ok [("description", .str "Test video"), ("has_music", .bool true)] := by rfl
-- the manual-fallback test of the source's test file
example : ParseJSON "Here's what I found: The video has a description of \"Amazing roadtrip video\" and contains music: true. The song title is \"Roadtrip Anthem\" by \"Travel Band\". Video path is \"gs://bucket/roadtrip.mp4\"." =
    .ok [("description", .str "Amazing roadtrip video"),
         ("has_music", .bool true),
         ("song_title", .str "Roadtrip Anthem"),
         ("song_artist", .str "Travel Band"),
         ("video_path", .str "gs://bucket/roadtrip.mp4")] := by rfl
-- empty object: tier 1 succeeds with zero fields
example : ParseJSON "\x7b\x7d" = .ok [] := by rfl
-- heuristic example of the specification
example : ParseJSON "The song title is \"Anthem\" by \"Band\". Video path is \"gs://b/v.mp4\"." =
    .ok [("song_title", .str "Anthem"), ("song_artist", .str "Band"),
         ("video_path", .str "gs://b/v.mp4")] := by rfl
-- a multi-line flat object containing the description key is recovered
example : ParseJSON "pre \x7b\n\"description\": \"X\"\n\x7d post" =
    .ok [("description", .str "X")] := by rfl
-- nothing recoverable
example : ParseJSON "nothing here" = .error "failed to extract any data from input" := by rfl
example : findAll2 "a\x7bxx\x7db \x7byy" = ["\x7bxx\x7d"] := by rfl
example : findAll1 "\x7b\"description\"\x7d tail \x7bz\x7d" = ["\x7b\"description\"\x7d"] := by rfl
-- the two-line export test of the source's test file
example : ExportFromString none "\x7b\"description\": \"Video 1\", \"has_music\": true, \"video_path\": \"gs://bucket/video1.mp4\"\x7d\n\x7b\"description\": \"Video 2\", \"has_music\": false, \"video_path\": \"gs://bucket/video2.mp4\"\x7d" =
    ⟨.ok (),
     ⟨[Export.csvHeader,
       ["Video 1", "true", "", "", "", "", "", "", "", "gs://bucket/video1.mp4"],
       ["Video 2", "false", "", "", "", "", "", "", "", "gs://bucket/video2.mp4"]], 1⟩,
     []⟩ := by rfl
-- the malformed-middle-line export test of the source's test file
example : ExportFromString none "\x7b\"description\": \"Video 1\"\x7d\nThis is malformed JSON that should be skipped\n\x7b\"description\": \"Video 3\"\x7d" =
    ⟨.ok (),
     ⟨[Export.csvHeader,
       ["Video 1", "false", "", "", "", "", "", "", "", ""],
       ["Video 3", "false", "", "", "", "", "", "", "", ""]], 1⟩,
     [2]⟩ := by rfl
example : Export.csvLine Export.csvHeader =
    "description,has_music,transcript,song_title,song_artist,web_search_song_title,web_search_song_artist,youtube_url,spotify_url,video_path\n" := by rfl
example : Export.csvLine ["a,b", "c\"d", ""] = "\"a,b\",\"c\"\"d\",\n" := by rfl
end Scratch
